import Mathlib

/-
  Verification development for the configuration parser of pam_hbac
  (src/pam_hbac_config.c).  The C functions are shallowly embedded:
  strings are lists of characters, heap allocation is driven by explicit
  oracles (a Bool per strdup/malloc call), and the file system is
  represented by the list of lines fgets would deliver.  Each embedded
  definition mirrors one C function of the source file.
-/

namespace PamHbac

/-- Whitespace predicate of the C locale, as used by isspace(3) in the
    source: space, tab, newline, vertical tab, form feed, carriage return. -/
def isspace (c : Char) : Bool :=
  c = ' ' || c = '\t' || c = '\n' || c.toNat = 11 || c.toNat = 12 || c.toNat = 13

/-- ASCII lowering, the per-character behaviour of strcasecmp(3). -/
def lowerAscii (c : Char) : Char :=
  if 'A' ≤ c ∧ c ≤ 'Z' then Char.ofNat (c.toNat + 32) else c

/-- Case-insensitive string equality: strcasecmp(a, b) == 0. -/
def strcaseEq (a b : List Char) : Bool :=
  a.map lowerAscii == b.map lowerAscii

/-- True when the string neither starts nor ends with whitespace
    (the shape `strip` leaves a string in). -/
def trimmed (v : List Char) : Bool :=
  v.head?.all (fun c => !isspace c) && v.getLast?.all (fun c => !isspace c)

/-- POSIX errno values used by the source. -/
def EINVAL : Nat := 22

/-- POSIX errno value ENOMEM. -/
def ENOMEM : Nat := 12

/-- POSIX errno value EAGAIN, used by read_config_line as the
    "skip this line" signal. -/
def EAGAIN : Nat := 11

/-- Modelled from the spec: HOST_NAME_MAX of limits.h (the fixed hostname
    buffer size); the header is not part of the sources.  64 on Linux. -/
def HOST_NAME_MAX : Nat := 64

/-- The NUL terminator byte. -/
def nul : Char := Char.ofNat 0

/-- Modelled from the spec: recognized key macro PAM_HBAC_CONFIG_URI of
    pam_hbac.h, which is not part of the sources (spec section 4.2). -/
def PAM_HBAC_CONFIG_URI : List Char := "ldap_uri".toList

/-- Modelled from the spec: recognized key macro PAM_HBAC_CONFIG_BIND_DN. -/
def PAM_HBAC_CONFIG_BIND_DN : List Char := "ldap_bind_dn".toList

/-- Modelled from the spec: recognized key macro PAM_HBAC_CONFIG_BIND_PW. -/
def PAM_HBAC_CONFIG_BIND_PW : List Char := "ldap_bind_pw".toList

/-- Modelled from the spec: recognized key macro PAM_HBAC_CONFIG_SEARCH_BASE. -/
def PAM_HBAC_CONFIG_SEARCH_BASE : List Char := "ldap_search_base".toList

/-- Modelled from the spec: recognized key macro PAM_HBAC_CONFIG_HOST_NAME
    (the host-name directive; the exact macro text lives in the missing
    header, only its existence and case-insensitive matching matter here). -/
def PAM_HBAC_CONFIG_HOST_NAME : List Char := "host_name".toList

/-- Modelled from the spec: compile-time default connection URI
    PAM_HBAC_DEFAULT_URI of the missing header config.h. -/
def PAM_HBAC_DEFAULT_URI : List Char := "ldap://localhost".toList

/-- Modelled from the spec: compile-time default search base
    PAM_HBAC_DEFAULT_SEARCH_BASE of the missing header config.h. -/
def PAM_HBAC_DEFAULT_SEARCH_BASE : List Char := "dc=example,dc=com".toList

/-- Modelled from the spec: compile-time default timeout
    PAM_HBAC_DEFAULT_TIMEOUT of the missing header config.h. -/
def PAM_HBAC_DEFAULT_TIMEOUT : Int := 5

/-- struct pam_hbac_config.  NULL string members are `none`; `timeout`
    starts at 0 from the zeroing calloc. -/
structure pam_hbac_config where
  uri : Option (List Char)
  bind_dn : Option (List Char)
  bind_pw : Option (List Char)
  search_base : Option (List Char)
  hostname : Option (List Char)
  timeout : Int
deriving DecidableEq, Repr

/-- The record as calloc(1, sizeof(struct pam_hbac_config)) produces it:
    all pointers NULL, timeout 0. -/
def emptyConf : pam_hbac_config := ⟨none, none, none, none, none, 0⟩

/-- strip() of the source: advance `start` past leading whitespace, then
    overwrite trailing whitespace with NUL, never moving `end` below
    `start`.  Observable effect: drop leading whitespace, then drop
    trailing whitespace of what remains. -/
def strip (s : List Char) : List Char :=
  (((s.dropWhile isspace).reverse).dropWhile isspace).reverse

/-- strchr(line, '=') followed by the split the source performs: the part
    before the first '=' and the part after it; `none` when the line has
    no '=' at all. -/
def splitAtFirstEq : List Char → Option (List Char × List Char)
  | [] => none
  | c :: cs =>
    if c = '=' then some ([], cs)
    else
      match splitAtFirstEq cs with
      | none => none
      | some (k, v) => some (c :: k, v)

/-- Outcomes of the two strdup calls in get_key_value that produce the
    key and the value (the strdup of the scratch copy `l` is modelled as
    succeeding: the source dereferences it without a NULL check). -/
structure AllocOracle where
  keyOk : Bool
  valueOk : Bool
deriving DecidableEq, Repr

/-- Result of get_key_value: either an owned key/value pair, or an errno
    together with the list of allocations the call made and never freed
    before returning (its leaks). -/
inductive GKVRes where
  | ok (key value : List Char)
  | err (ret : Nat) (leaked : List (List Char))
deriving DecidableEq, Repr

/-- get_key_value() of the source.  No separator: EINVAL.  Otherwise the
    line is split at the first '=', both halves are stripped and strdup'd;
    if either strdup fails the function returns ENOMEM — the source frees
    only the scratch copy `l`, so a sibling string that did get allocated
    is left in the `leaked` list, exactly as the C code leaves it
    unreachable. -/
def get_key_value (o : AllocOracle) (line : List Char) : GKVRes :=
  match splitAtFirstEq line with
  | none => .err EINVAL []
  | some (kpart, vpart) =>
    match (if o.keyOk then some (strip kpart) else none),
          (if o.valueOk then some (strip vpart) else none) with
    | some k, some v => .ok k v
    | some k, none => .err ENOMEM [k]
    | none, some v => .err ENOMEM [v]
    | none, none => .err ENOMEM []

/-- The key-dispatch chain of read_config_line: given the owned key and
    value, the updated record, the strings freed by the branch (the value
    first when the key is unknown, then always the key), and the strings
    made unreachable without a free (a previous value of the field that
    the assignment overwrites). -/
def storeKeyValue (conf : pam_hbac_config) (key value : List Char) :
    pam_hbac_config × List (List Char) × List (List Char) :=
  if strcaseEq key PAM_HBAC_CONFIG_URI then
    ({ conf with uri := some value }, [key], conf.uri.toList)
  else if strcaseEq key PAM_HBAC_CONFIG_BIND_DN then
    ({ conf with bind_dn := some value }, [key], conf.bind_dn.toList)
  else if strcaseEq key PAM_HBAC_CONFIG_BIND_PW then
    ({ conf with bind_pw := some value }, [key], conf.bind_pw.toList)
  else if strcaseEq key PAM_HBAC_CONFIG_SEARCH_BASE then
    ({ conf with search_base := some value }, [key], conf.search_base.toList)
  else if strcaseEq key PAM_HBAC_CONFIG_HOST_NAME then
    ({ conf with hostname := some value }, [key], conf.hostname.toList)
  else
    (conf, [value, key], [])

/-- Result of read_config_line: the returned errno (0 success, EAGAIN
    skip), the record after the call, the strings the call freed, and the
    strings it made unreachable without freeing. -/
structure RCLOut where
  ret : Nat
  conf : pam_hbac_config
  freed : List (List Char)
  leaked : List (List Char)
deriving DecidableEq, Repr

/-- read_config_line() of the source: skip leading whitespace; a '#'
    first character is EAGAIN with the record untouched; otherwise
    get_key_value splits the rest, a failure there is propagated (the
    local key/value are still NULL, so the fail path frees nothing), and
    on success the key dispatch runs and the key (plus, for an unknown
    key, the value) is freed. -/
def read_config_line (o : AllocOracle) (line : List Char)
    (conf : pam_hbac_config) : RCLOut :=
  if (line.dropWhile isspace).head? = some '#' then
    ⟨EAGAIN, conf, [], []⟩
  else
    match get_key_value o (line.dropWhile isspace) with
    | .err r leaked => ⟨r, conf, [], leaked⟩
    | .ok k v =>
      ⟨0, (storeKeyValue conf k v).1, (storeKeyValue conf k v).2.1,
        (storeKeyValue conf k v).2.2⟩

/-- The fgets loop of ph_read_config: each line is interpreted against the
    record; EAGAIN continues with the next line, any other nonzero errno
    aborts the whole loop with that errno. -/
def processLines : List (List Char × AllocOracle) → pam_hbac_config →
    Except Nat pam_hbac_config
  | [], conf => .ok conf
  | (line, o) :: rest, conf =>
    if (read_config_line o line conf).ret = EAGAIN then
      processLines rest (read_config_line o line conf).conf
    else if (read_config_line o line conf).ret ≠ 0 then
      .error (read_config_line o line conf).ret
    else
      processLines rest (read_config_line o line conf).conf

/-- Outcomes of the allocations and the gethostname call inside
    default_config: the two strdup calls for the defaults, the malloc of
    the hostname buffer, and the buffer contents gethostname leaves on
    success (`none` models a failing gethostname). -/
structure DefaultOracle where
  uriOk : Bool
  baseOk : Bool
  hostMallocOk : Bool
  hostBuf : Option (List Char)
deriving DecidableEq, Repr

/-- The trailing step of default_config: a zero timeout is replaced by the
    compile-time default. -/
def setTimeout (conf : pam_hbac_config) : pam_hbac_config :=
  if conf.timeout = 0 then { conf with timeout := PAM_HBAC_DEFAULT_TIMEOUT }
  else conf

/-- The two leading strdup blocks of default_config: a still-NULL uri or
    search_base receives the compile-time default (or stays NULL when the
    strdup fails); fields that the file did set are left alone.  The two
    updates touch disjoint fields, so the sequential C blocks equal this
    one simultaneous update. -/
def defaultStrings (o : DefaultOracle) (conf : pam_hbac_config) :
    pam_hbac_config :=
  { conf with
    uri := if conf.uri = none then
             (if o.uriOk then some PAM_HBAC_DEFAULT_URI else none)
           else conf.uri,
    search_base := if conf.search_base = none then
                     (if o.baseOk then some PAM_HBAC_DEFAULT_SEARCH_BASE else none)
                   else conf.search_base }

/-- default_config() of the source: strdup the default URI and search base
    into still-NULL fields, fail if either field is still NULL afterwards;
    a NULL hostname is filled from a HOST_NAME_MAX buffer written by
    gethostname whose last byte is then forced to NUL; a zero timeout gets
    the default.  `none` is the fail path, on which the source releases
    the whole record via ph_cleanup_config and returns NULL. -/
def default_config (o : DefaultOracle) (conf : pam_hbac_config) :
    Option pam_hbac_config :=
  if (defaultStrings o conf).search_base = none ∨ (defaultStrings o conf).uri = none
  then none
  else
    match (defaultStrings o conf).hostname with
    | some _ => some (setTimeout (defaultStrings o conf))
    | none =>
      if o.hostMallocOk = false then none
      else
        match o.hostBuf with
        | none => none
        | some buf =>
          some (setTimeout
            { defaultStrings o conf with
                hostname := some (buf.set (HOST_NAME_MAX - 1) nul) })

/-- Result of ph_read_config: the returned errno, what was stored through
    the output slot `*_conf` (`none`: the slot was never written), and
    whether every in-progress record was released (true on each failure
    path: either ph_cleanup_config ran on the record, or no record had
    been allocated yet). -/
structure PRCOut where
  ret : Nat
  conf : Option pam_hbac_config
  recordReleased : Bool
deriving DecidableEq, Repr

/-- ph_read_config() of the source.  `openErr = some e` models fopen
    failing with errno e (no record is allocated); `callocOk = false`
    models the calloc of the record failing (ENOMEM; the cleanup at
    `done` runs on NULL, a no-op).  A line error aborts and releases the
    record; a defaulting failure has already released it inside
    default_config and yields ENOMEM.  Success hands the record to the
    caller through the slot. -/
def ph_read_config (openErr : Option Nat) (callocOk : Bool)
    (lines : List (List Char × AllocOracle)) (o : DefaultOracle) : PRCOut :=
  match openErr with
  | some e => ⟨e, none, true⟩
  | none =>
    if callocOk = false then ⟨ENOMEM, none, true⟩
    else
      match processLines lines emptyConf with
      | .error r => ⟨r, none, true⟩
      | .ok conf =>
        match default_config o conf with
        | none => ⟨ENOMEM, none, true⟩
        | some c => ⟨0, some c, false⟩

/-- Dropping whitespace walks through a fully-whitespace prefix. -/
theorem dropWhile_append_all (w t : List Char) (h : w.all isspace = true) :
    (w ++ t).dropWhile isspace = t.dropWhile isspace := by
  induction w with
  | nil => rfl
  | cons a w ih =>
    rw [List.all_cons, Bool.and_eq_true] at h
    simp [List.dropWhile_cons, h.1, ih h.2]

/-- A fully-whitespace string is dropped entirely. -/
theorem dropWhile_all (w : List Char) (h : w.all isspace = true) :
    w.dropWhile isspace = [] := by
  have h2 := dropWhile_append_all w [] h
  simpa using h2

/-- Dropping whitespace stops at a non-whitespace head. -/
theorem dropWhile_cons_nospace (c : Char) (t : List Char)
    (h : isspace c = false) : (c :: t).dropWhile isspace = c :: t := by
  simp [List.dropWhile_cons, h]

/-- A non-whitespace character does not occur in a fully-whitespace string. -/
theorem not_mem_of_all_isspace (w : List Char) (h : w.all isspace = true)
    (c : Char) (hc : isspace c = false) : c ∉ w := by
  intro hm
  rw [List.all_eq_true] at h
  have h2 := h c hm
  rw [hc] at h2
  exact Bool.false_ne_true h2

/-- strchr finds the marked separator when the prefix has none. -/
theorem splitAtFirstEq_append (pre rest : List Char) (h : '=' ∉ pre) :
    splitAtFirstEq (pre ++ '=' :: rest) = some (pre, rest) := by
  induction pre with
  | nil => simp [splitAtFirstEq]
  | cons a p ih =>
    have ha : ¬(a = '=') := by
      intro he
      exact h (he ▸ List.mem_cons_self a p)
    have hp : '=' ∉ p := fun hm => h (List.mem_cons_of_mem a hm)
    simp [splitAtFirstEq, ha, ih hp]

/-- strchr fails on a string without the separator. -/
theorem splitAtFirstEq_none (l : List Char) (h : '=' ∉ l) :
    splitAtFirstEq l = none := by
  induction l with
  | nil => rfl
  | cons a t ih =>
    have ha : ¬(a = '=') := by
      intro he
      exact h (he ▸ List.mem_cons_self a t)
    have ht : '=' ∉ t := fun hm => h (List.mem_cons_of_mem a hm)
    simp [splitAtFirstEq, ha, ih ht]

/-- strip removes exactly the surrounding whitespace of an already-trimmed
    core. -/
theorem strip_sandwich (w1 w2 v : List Char) (h1 : w1.all isspace = true)
    (h2 : w2.all isspace = true) (hv : trimmed v = true) :
    strip (w1 ++ v ++ w2) = v := by
  unfold strip
  cases v with
  | nil =>
    rw [List.append_nil, dropWhile_append_all w1 w2 h1, dropWhile_all w2 h2]
    rfl
  | cons c v2 =>
    unfold trimmed at hv
    rw [Bool.and_eq_true] at hv
    obtain ⟨hvh, hvl⟩ := hv
    have hhead : isspace c = false := by
      simpa using hvh
    have hne : (c :: v2) ≠ [] := List.cons_ne_nil c v2
    have hgl : (c :: v2).getLast? = some ((c :: v2).getLast hne) :=
      List.getLast?_eq_getLast _ hne
    have hlast : isspace ((c :: v2).getLast hne) = false := by
      rw [hgl] at hvl
      simpa using hvl
    have hw2rev : w2.reverse.all isspace = true := by
      rw [List.all_eq_true] at h2 ⊢
      intro x hx
      exact h2 x (List.mem_reverse.mp hx)
    have hstep1 : (w1 ++ (c :: v2) ++ w2).dropWhile isspace = (c :: v2) ++ w2 := by
      rw [List.append_assoc, dropWhile_append_all w1 _ h1]
      exact dropWhile_cons_nospace c (v2 ++ w2) hhead
    rw [hstep1, List.reverse_append, dropWhile_append_all _ _ hw2rev]
    rcases hR : (c :: v2).reverse with _ | ⟨d, t⟩
    · exact absurd (List.reverse_eq_nil_iff.mp hR) hne
    · have hdh : (c :: v2).reverse.head? = some d := by
        rw [hR]
        rfl
      rw [List.head?_reverse, hgl] at hdh
      have hd : d = (c :: v2).getLast hne := by
        exact (Option.some_inj.mp hdh.symm)
      have hds : isspace d = false := by
        rw [hd]
        exact hlast
      rw [dropWhile_cons_nospace d t hds, ← hR, List.reverse_reverse]

/-- On a well-formed directive — optional whitespace, a trimmed key not
    starting with '#' and free of '=', optional whitespace, '=', the value
    with optional whitespace around it — read_config_line reduces to the
    key dispatch applied to the trimmed key and value. -/
theorem read_config_line_structured (o : AllocOracle) (conf : pam_hbac_config)
    (w1 w2 w3 w4 k v : List Char) (c : Char)
    (ho1 : o.keyOk = true) (ho2 : o.valueOk = true)
    (h1 : w1.all isspace = true) (h2 : w2.all isspace = true)
    (h3 : w3.all isspace = true) (h4 : w4.all isspace = true)
    (hk : k.head? = some c) (hc1 : isspace c = false) (hc2 : c ≠ '#')
    (hkt : trimmed k = true) (hke : '=' ∉ k) (hvt : trimmed v = true) :
    read_config_line o (w1 ++ k ++ w2 ++ '=' :: (w3 ++ v ++ w4)) conf =
      ⟨0, (storeKeyValue conf k v).1, (storeKeyValue conf k v).2.1,
        (storeKeyValue conf k v).2.2⟩ := by
  obtain ⟨k2, rfl⟩ : ∃ k2, k = c :: k2 := by
    cases k with
    | nil => simp at hk
    | cons a b =>
      have hac : a = c := by simpa using hk
      exact ⟨b, by rw [hac]⟩
  have hl : (w1 ++ (c :: k2) ++ w2 ++ '=' :: (w3 ++ v ++ w4)).dropWhile isspace
      = c :: (k2 ++ w2 ++ '=' :: (w3 ++ v ++ w4)) := by
    have e1 : w1 ++ (c :: k2) ++ w2 ++ '=' :: (w3 ++ v ++ w4)
        = w1 ++ (c :: (k2 ++ w2 ++ '=' :: (w3 ++ v ++ w4))) := by
      simp [List.append_assoc]
    rw [e1, dropWhile_append_all w1 _ h1, dropWhile_cons_nospace _ _ hc1]
  have hkw : '=' ∉ (c :: k2) ++ w2 := by
    intro hm
    rcases List.mem_append.mp hm with hm1 | hm2
    · exact hke hm1
    · exact not_mem_of_all_isspace w2 h2 '=' (by decide) hm2
  have hsplit : splitAtFirstEq (c :: (k2 ++ w2 ++ '=' :: (w3 ++ v ++ w4)))
      = some ((c :: k2) ++ w2, w3 ++ v ++ w4) := by
    have e2 : c :: (k2 ++ w2 ++ '=' :: (w3 ++ v ++ w4))
        = ((c :: k2) ++ w2) ++ '=' :: (w3 ++ v ++ w4) := by
      simp [List.append_assoc]
    rw [e2]
    exact splitAtFirstEq_append ((c :: k2) ++ w2) (w3 ++ v ++ w4) hkw
  have hkstrip : strip ((c :: k2) ++ w2) = c :: k2 := by
    have hs := strip_sandwich [] w2 (c :: k2) (by rfl) h2 hkt
    simpa using hs
  have hvstrip : strip (w3 ++ v ++ w4) = v := strip_sandwich w3 w4 v h3 h4 hvt
  have hgkv : get_key_value o (c :: (k2 ++ w2 ++ '=' :: (w3 ++ v ++ w4)))
      = .ok (c :: k2) v := by
    unfold get_key_value
    rw [hsplit, ho1, ho2]
    have hkstrip2 : strip (c :: (k2 ++ w2)) = c :: k2 := by
      simpa [List.append_assoc] using hkstrip
    have hvstrip2 : strip (w3 ++ (v ++ w4)) = v := by
      simpa [List.append_assoc] using hvstrip
    simp [hkstrip2, hvstrip2]
  have hhash : ((w1 ++ (c :: k2) ++ w2 ++ '=' :: (w3 ++ v ++ w4)).dropWhile
      isspace).head? ≠ some '#' := by
    rw [hl]
    simpa using hc2
  unfold read_config_line
  rw [if_neg hhash, hl, hgkv]

/-- The key is freed on every branch of the dispatch. -/
theorem storeKeyValue_frees_key (conf : pam_hbac_config) (k v : List Char) :
    k ∈ (storeKeyValue conf k v).2.1 := by
  unfold storeKeyValue
  repeat' split
  all_goals simp

/-- No branch of the dispatch touches the timeout field. -/
theorem storeKeyValue_timeout (conf : pam_hbac_config) (k v : List Char) :
    (storeKeyValue conf k v).1.timeout = conf.timeout := by
  unfold storeKeyValue
  repeat' split
  all_goals rfl

/-- read_config_line never changes the timeout field. -/
theorem read_config_line_timeout (o : AllocOracle) (line : List Char)
    (conf : pam_hbac_config) :
    ((read_config_line o line conf).conf).timeout = conf.timeout := by
  unfold read_config_line
  split
  · rfl
  · split
    · rfl
    · exact storeKeyValue_timeout conf _ _

/-- Unfolding equation of the loop on the empty file. -/
theorem processLines_nil (conf : pam_hbac_config) :
    processLines [] conf = .ok conf := rfl

/-- Unfolding equation of the loop on one more line. -/
theorem processLines_cons (line : List Char) (o : AllocOracle)
    (rest : List (List Char × AllocOracle)) (conf : pam_hbac_config) :
    processLines ((line, o) :: rest) conf =
      if (read_config_line o line conf).ret = EAGAIN then
        processLines rest (read_config_line o line conf).conf
      else if (read_config_line o line conf).ret ≠ 0 then
        .error (read_config_line o line conf).ret
      else
        processLines rest (read_config_line o line conf).conf := rfl

/-- The fgets loop never changes the timeout field. -/
theorem processLines_timeout (ls : List (List Char × AllocOracle))
    (conf p : pam_hbac_config) (h : processLines ls conf = .ok p) :
    p.timeout = conf.timeout := by
  induction ls generalizing conf with
  | nil =>
    rw [processLines_nil] at h
    cases h
    rfl
  | cons hd tl ih =>
    obtain ⟨line, o⟩ := hd
    rw [processLines_cons] at h
    split at h
    · rw [ih _ h]
      exact read_config_line_timeout o line conf
    · split at h
      · cases h
      · rw [ih _ h]
        exact read_config_line_timeout o line conf

/-- A prefix the loop accepts composes with the rest of the file. -/
theorem processLines_append (pre rest : List (List Char × AllocOracle))
    (conf p : pam_hbac_config) (h : processLines pre conf = .ok p) :
    processLines (pre ++ rest) conf = processLines rest p := by
  induction pre generalizing conf with
  | nil =>
    rw [processLines_nil] at h
    cases h
    rfl
  | cons hd tl ih =>
    obtain ⟨line, o⟩ := hd
    rw [processLines_cons] at h
    rw [List.cons_append, processLines_cons]
    split at h
    · rw [if_pos (by assumption)]
      exact ih _ h
    · split at h
      · cases h
      · rw [if_neg (by assumption), if_neg (by assumption)]
        exact ih _ h

/-- The loop aborts only with a nonzero errno. -/
theorem processLines_error_ne_zero (ls : List (List Char × AllocOracle))
    (conf : pam_hbac_config) (r : Nat) (h : processLines ls conf = .error r) :
    r ≠ 0 := by
  induction ls generalizing conf with
  | nil =>
    rw [processLines_nil] at h
    cases h
  | cons hd tl ih =>
    obtain ⟨line, o⟩ := hd
    rw [processLines_cons] at h
    split at h
    · exact ih _ h
    · split at h
      · cases h
        assumption
      · exact ih _ h

/-- The timeout step leaves uri alone. -/
theorem setTimeout_uri (c : pam_hbac_config) : (setTimeout c).uri = c.uri := by
  unfold setTimeout
  split <;> rfl

/-- The timeout step leaves search_base alone. -/
theorem setTimeout_search_base (c : pam_hbac_config) :
    (setTimeout c).search_base = c.search_base := by
  unfold setTimeout
  split <;> rfl

/-- The timeout step leaves hostname alone. -/
theorem setTimeout_hostname (c : pam_hbac_config) :
    (setTimeout c).hostname = c.hostname := by
  unfold setTimeout
  split <;> rfl

/-- Value of the timeout field after the timeout step. -/
theorem setTimeout_timeout (c : pam_hbac_config) :
    (setTimeout c).timeout =
      if c.timeout = 0 then PAM_HBAC_DEFAULT_TIMEOUT else c.timeout := by
  unfold setTimeout
  split <;> rfl

/-- What a successful defaulting pass guarantees about the produced record:
    uri and search_base come out of the default-filling step, the timeout
    is defaulted exactly when it was zero, an explicit hostname survives
    verbatim, and a missing hostname is the gethostname buffer with its
    last byte forced to NUL. -/
theorem default_config_some (o : DefaultOracle) (p c : pam_hbac_config)
    (h : default_config o p = some c) :
    c.uri = (defaultStrings o p).uri ∧
    c.search_base = (defaultStrings o p).search_base ∧
    c.timeout = (if p.timeout = 0 then PAM_HBAC_DEFAULT_TIMEOUT else p.timeout) ∧
    (∀ hn, p.hostname = some hn → c.hostname = some hn) ∧
    (p.hostname = none →
      ∃ buf, o.hostBuf = some buf ∧
        c.hostname = some (buf.set (HOST_NAME_MAX - 1) nul)) := by
  have hds : (defaultStrings o p).hostname = p.hostname := rfl
  have hdt : (defaultStrings o p).timeout = p.timeout := rfl
  unfold default_config at h
  split at h
  · cases h
  · split at h
    next x heq =>
      cases h
      refine ⟨setTimeout_uri _, setTimeout_search_base _, ?_, ?_, ?_⟩
      · rw [setTimeout_timeout, hdt]
      · intro hn hp
        rw [setTimeout_hostname, hds, hp]
      · intro hp
        rw [hds, hp] at heq
        cases heq
    next heq =>
      rw [hds] at heq
      split at h
      · cases h
      · split at h
        · cases h
        next buf hbuf =>
          cases h
          refine ⟨?_, ?_, ?_, ?_, ?_⟩
          · rw [setTimeout_uri]
          · rw [setTimeout_search_base]
          · rw [setTimeout_timeout]
            rfl
          · intro hn hp
            rw [hp] at heq
            cases heq
          · intro _
            exact ⟨buf, hbuf, by rw [setTimeout_hostname]⟩

/-- A member of the whitespace-stripped line is a member of the line. -/
theorem mem_of_mem_dropWhile (l : List Char) (c : Char)
    (h : c ∈ l.dropWhile isspace) : c ∈ l := by
  induction l with
  | nil => simp at h
  | cons a t ih =>
    rw [List.dropWhile_cons] at h
    split at h
    · exact List.mem_cons_of_mem a (ih h)
    · exact h

/-- Case-insensitive equality transports along a known mismatch of the
    lowered forms. -/
theorem strcaseEq_trans_ne (k a b : List Char) (h : strcaseEq k a = true)
    (hab : (a.map lowerAscii == b.map lowerAscii) = false) :
    strcaseEq k b = false := by
  simp only [strcaseEq] at h ⊢
  rw [beq_iff_eq] at h
  rw [h]
  exact hab

/-- A successful defaulting pass implies neither uri nor search_base was
    left NULL by the default-filling step. -/
theorem default_config_some_guard (o : DefaultOracle) (p c : pam_hbac_config)
    (h : default_config o p = some c) :
    (defaultStrings o p).uri ≠ none ∧ (defaultStrings o p).search_base ≠ none := by
  unfold default_config at h
  split at h
  · cases h
  next hguard =>
    rw [not_or] at hguard
    exact ⟨hguard.2, hguard.1⟩

/-- Field equation of the default-filling step for uri. -/
theorem defaultStrings_uri (o : DefaultOracle) (p : pam_hbac_config) :
    (defaultStrings o p).uri =
      if p.uri = none then
        (if o.uriOk then some PAM_HBAC_DEFAULT_URI else none)
      else p.uri := rfl

/-- Field equation of the default-filling step for search_base. -/
theorem defaultStrings_search_base (o : DefaultOracle) (p : pam_hbac_config) :
    (defaultStrings o p).search_base =
      if p.search_base = none then
        (if o.baseOk then some PAM_HBAC_DEFAULT_SEARCH_BASE else none)
      else p.search_base := rfl

/-- Claim C1 (code bug): a line that is empty or all whitespace is NOT
    signalled as "skip, not an error" the way a comment line is.  The
    interpreter never special-cases a line whose first non-whitespace
    character is missing: such a line reaches get_key_value, which finds
    no separator and returns EINVAL, so a whole-file load containing a
    blank line aborts with EINVAL instead of skipping it. -/
theorem blank_line_rejected :
    (read_config_line ⟨true, true⟩ ['\n'] emptyConf).ret = EINVAL ∧
    (read_config_line ⟨true, true⟩ ['\n'] emptyConf).ret ≠ EAGAIN ∧
    (read_config_line ⟨true, true⟩ [' ', '\t', '\n'] emptyConf).ret = EINVAL ∧
    ph_read_config none true [(['\n'], ⟨true, true⟩)]
        ⟨true, true, true, some (List.replicate 64 'a')⟩ =
      ⟨EINVAL, none, true⟩ := by
  refine ⟨by decide, by decide, by decide, by decide⟩

/-- Claim C2: every failing load — fopen failure with its nonzero errno,
    calloc failure, an aborting line, or a failing defaulting pass —
    returns a nonzero error code, leaves the output slot unwritten, and
    leaves no live in-progress record behind. -/
theorem ph_read_config_fail_clean (openErr : Option Nat) (callocOk : Bool)
    (lines : List (List Char × AllocOracle)) (o : DefaultOracle)
    (hfail :
      (∃ e, openErr = some e ∧ e ≠ 0) ∨
      (openErr = none ∧ callocOk = false) ∨
      (openErr = none ∧ ∃ r, processLines lines emptyConf = .error r) ∨
      (openErr = none ∧ ∃ p, processLines lines emptyConf = .ok p ∧
        default_config o p = none)) :
    (ph_read_config openErr callocOk lines o).ret ≠ 0 ∧
    (ph_read_config openErr callocOk lines o).conf = none ∧
    (ph_read_config openErr callocOk lines o).recordReleased = true := by
  obtain ⟨e, rfl, he⟩ | ⟨rfl, rfl⟩ | ⟨rfl, r, hr⟩ | ⟨rfl, p, hp, hd⟩ := hfail
  · exact ⟨he, rfl, rfl⟩
  · have hres : ph_read_config none false lines o = ⟨ENOMEM, none, true⟩ := rfl
    rw [hres]
    exact ⟨by decide, rfl, rfl⟩
  · cases callocOk with
    | false =>
      have hres : ph_read_config none false lines o = ⟨ENOMEM, none, true⟩ := rfl
      rw [hres]
      exact ⟨by decide, rfl, rfl⟩
    | true =>
      have hres : ph_read_config none true lines o = ⟨r, none, true⟩ := by
        simp [ph_read_config, hr]
      rw [hres]
      exact ⟨processLines_error_ne_zero lines emptyConf r hr, rfl, rfl⟩
  · cases callocOk with
    | false =>
      have hres : ph_read_config none false lines o = ⟨ENOMEM, none, true⟩ := rfl
      rw [hres]
      exact ⟨by decide, rfl, rfl⟩
    | true =>
      have hres : ph_read_config none true lines o = ⟨ENOMEM, none, true⟩ := by
        simp [ph_read_config, hp, hd]
      rw [hres]
      exact ⟨by decide, rfl, rfl⟩

/-- Witness for C2: a failed fopen with errno 2 (ENOENT). -/
theorem ph_read_config_fail_clean_witness :
    ((∃ e, (some 2 : Option Nat) = some e ∧ e ≠ 0) ∨
      ((some 2 : Option Nat) = none ∧ true = false) ∨
      ((some 2 : Option Nat) = none ∧
        ∃ r, processLines [] emptyConf = .error r) ∨
      ((some 2 : Option Nat) = none ∧ ∃ p, processLines [] emptyConf = .ok p ∧
        default_config ⟨true, true, true, some (List.replicate 64 'a')⟩ p = none)) ∧
    ((ph_read_config (some 2) true []
        ⟨true, true, true, some (List.replicate 64 'a')⟩).ret ≠ 0 ∧
      (ph_read_config (some 2) true []
        ⟨true, true, true, some (List.replicate 64 'a')⟩).conf = none ∧
      (ph_read_config (some 2) true []
        ⟨true, true, true, some (List.replicate 64 'a')⟩).recordReleased = true) :=
  ⟨Or.inl ⟨2, rfl, by decide⟩,
    ph_read_config_fail_clean (some 2) true []
      ⟨true, true, true, some (List.replicate 64 'a')⟩
      (Or.inl ⟨2, rfl, by decide⟩)⟩

/-- Claim C3 (code bug): when exactly one of the two strdup calls of
    get_key_value fails, the call does return ENOMEM, but the string that
    WAS allocated is not freed first — it is left unreachable (leaked),
    contrary to the no-leak requirement.  Shown here on the line "k=v" for
    both single-failure cases. -/
theorem get_key_value_leaks_on_partial_alloc :
    (get_key_value ⟨true, false⟩ ['k', '=', 'v'] = .err ENOMEM [['k']] ∧
      ([['k']] : List (List Char)) ≠ []) ∧
    (get_key_value ⟨false, true⟩ ['k', '=', 'v'] = .err ENOMEM [['v']] ∧
      ([['v']] : List (List Char)) ≠ []) := by
  refine ⟨⟨by decide, by decide⟩, ⟨by decide, by decide⟩⟩

/-- Claim C4: on a key=value line with arbitrary (possibly empty)
    whitespace around both the key and the value, split at the first '='
    of the line, a key that case-insensitively matches a recognized key
    stores exactly the whitespace-stripped value text into the
    corresponding field of the record (freeing the key and leaking a
    previously stored value of that field, as the source does). -/
theorem key_value_line_stores_stripped_value
    (o : AllocOracle) (conf : pam_hbac_config)
    (w1 w2 w3 w4 k v : List Char) (c : Char)
    (ho1 : o.keyOk = true) (ho2 : o.valueOk = true)
    (h1 : w1.all isspace = true) (h2 : w2.all isspace = true)
    (h3 : w3.all isspace = true) (h4 : w4.all isspace = true)
    (hk : k.head? = some c) (hc1 : isspace c = false) (hc2 : c ≠ '#')
    (hkt : trimmed k = true) (hke : '=' ∉ k) (hvt : trimmed v = true) :
    (strcaseEq k PAM_HBAC_CONFIG_URI = true →
      read_config_line o (w1 ++ k ++ w2 ++ '=' :: (w3 ++ v ++ w4)) conf =
        ⟨0, { conf with uri := some v }, [k], conf.uri.toList⟩) ∧
    (strcaseEq k PAM_HBAC_CONFIG_BIND_DN = true →
      read_config_line o (w1 ++ k ++ w2 ++ '=' :: (w3 ++ v ++ w4)) conf =
        ⟨0, { conf with bind_dn := some v }, [k], conf.bind_dn.toList⟩) ∧
    (strcaseEq k PAM_HBAC_CONFIG_BIND_PW = true →
      read_config_line o (w1 ++ k ++ w2 ++ '=' :: (w3 ++ v ++ w4)) conf =
        ⟨0, { conf with bind_pw := some v }, [k], conf.bind_pw.toList⟩) ∧
    (strcaseEq k PAM_HBAC_CONFIG_SEARCH_BASE = true →
      read_config_line o (w1 ++ k ++ w2 ++ '=' :: (w3 ++ v ++ w4)) conf =
        ⟨0, { conf with search_base := some v }, [k], conf.search_base.toList⟩) ∧
    (strcaseEq k PAM_HBAC_CONFIG_HOST_NAME = true →
      read_config_line o (w1 ++ k ++ w2 ++ '=' :: (w3 ++ v ++ w4)) conf =
        ⟨0, { conf with hostname := some v }, [k], conf.hostname.toList⟩) := by
  have hred := read_config_line_structured o conf w1 w2 w3 w4 k v c
    ho1 ho2 h1 h2 h3 h4 hk hc1 hc2 hkt hke hvt
  refine ⟨?_, ?_, ?_, ?_, ?_⟩ <;> intro hm <;> rw [hred]
  · simp [storeKeyValue, hm]
  · have f1 := strcaseEq_trans_ne k PAM_HBAC_CONFIG_BIND_DN
      PAM_HBAC_CONFIG_URI hm (by decide)
    simp [storeKeyValue, f1, hm]
  · have f1 := strcaseEq_trans_ne k PAM_HBAC_CONFIG_BIND_PW
      PAM_HBAC_CONFIG_URI hm (by decide)
    have f2 := strcaseEq_trans_ne k PAM_HBAC_CONFIG_BIND_PW
      PAM_HBAC_CONFIG_BIND_DN hm (by decide)
    simp [storeKeyValue, f1, f2, hm]
  · have f1 := strcaseEq_trans_ne k PAM_HBAC_CONFIG_SEARCH_BASE
      PAM_HBAC_CONFIG_URI hm (by decide)
    have f2 := strcaseEq_trans_ne k PAM_HBAC_CONFIG_SEARCH_BASE
      PAM_HBAC_CONFIG_BIND_DN hm (by decide)
    have f3 := strcaseEq_trans_ne k PAM_HBAC_CONFIG_SEARCH_BASE
      PAM_HBAC_CONFIG_BIND_PW hm (by decide)
    simp [storeKeyValue, f1, f2, f3, hm]
  · have f1 := strcaseEq_trans_ne k PAM_HBAC_CONFIG_HOST_NAME
      PAM_HBAC_CONFIG_URI hm (by decide)
    have f2 := strcaseEq_trans_ne k PAM_HBAC_CONFIG_HOST_NAME
      PAM_HBAC_CONFIG_BIND_DN hm (by decide)
    have f3 := strcaseEq_trans_ne k PAM_HBAC_CONFIG_HOST_NAME
      PAM_HBAC_CONFIG_BIND_PW hm (by decide)
    have f4 := strcaseEq_trans_ne k PAM_HBAC_CONFIG_HOST_NAME
      PAM_HBAC_CONFIG_SEARCH_BASE hm (by decide)
    simp [storeKeyValue, f1, f2, f3, f4, hm]

/-- Witness for C4: the line " ldap_URI  =  ldap://x  " stores
    "ldap://x" into the uri field. -/
theorem key_value_line_stores_stripped_value_witness :
    strcaseEq ("ldap_URI".toList) PAM_HBAC_CONFIG_URI = true ∧
    read_config_line ⟨true, true⟩
        ([' '] ++ "ldap_URI".toList ++ [' '] ++
          '=' :: ([' ', ' '] ++ "ldap://x".toList ++ [' ', ' '])) emptyConf =
      ⟨0, { emptyConf with uri := some ("ldap://x".toList) },
        ["ldap_URI".toList], emptyConf.uri.toList⟩ :=
  ⟨by decide,
    (key_value_line_stores_stripped_value ⟨true, true⟩ emptyConf
      [' '] [' '] [' ', ' '] [' ', ' '] ("ldap_URI".toList) ("ldap://x".toList)
      'l' rfl rfl (by decide) (by decide) (by decide) (by decide) (by decide)
      (by decide) (by decide) (by decide) (by decide) (by decide)).1
      (by decide)⟩

/-- Claim C5: a non-comment line without any '=' makes read_config_line
    return the malformed-line error EINVAL, and a file containing such a
    line after any accepted prefix fails as a whole: the loader aborts,
    releases the record, returns EINVAL, and writes no record. -/
theorem no_separator_aborts_load (line : List Char) (o : AllocOracle)
    (hnoeq : '=' ∉ line)
    (hnc : (line.dropWhile isspace).head? ≠ some '#') :
    (∀ conf, read_config_line o line conf = ⟨EINVAL, conf, [], []⟩) ∧
    (∀ pre rest dOr p, processLines pre emptyConf = .ok p →
      ph_read_config none true (pre ++ (line, o) :: rest) dOr =
        ⟨EINVAL, none, true⟩) := by
  have hmem : '=' ∉ line.dropWhile isspace := fun hm =>
    hnoeq (mem_of_mem_dropWhile line '=' hm)
  have hsplit : splitAtFirstEq (line.dropWhile isspace) = none :=
    splitAtFirstEq_none _ hmem
  have hrcl : ∀ conf, read_config_line o line conf = ⟨EINVAL, conf, [], []⟩ := by
    intro conf
    unfold read_config_line
    rw [if_neg hnc]
    unfold get_key_value
    rw [hsplit]
  refine ⟨hrcl, ?_⟩
  intro pre rest dOr p hp
  have hproc : processLines (pre ++ (line, o) :: rest) emptyConf
      = .error EINVAL := by
    rw [processLines_append pre _ emptyConf p hp, processLines_cons, hrcl p]
    simp [EINVAL, EAGAIN]
  simp [ph_read_config, hproc]

/-- Witness for C5: the separator-free line "ldap_uri ldap://x" fails the
    load of a file that starts with an accepted comment line. -/
theorem no_separator_aborts_load_witness :
    ('=' ∉ "ldap_uri ldap://x\n".toList) ∧
    (("ldap_uri ldap://x\n".toList.dropWhile isspace).head? ≠ some '#') ∧
    read_config_line ⟨true, true⟩ "ldap_uri ldap://x\n".toList emptyConf =
      ⟨EINVAL, emptyConf, [], []⟩ ∧
    ph_read_config none true
        [("# c\n".toList, ⟨true, true⟩), ("ldap_uri ldap://x\n".toList, ⟨true, true⟩)]
        ⟨true, true, true, some (List.replicate 64 'a')⟩ =
      ⟨EINVAL, none, true⟩ := by
  have h := no_separator_aborts_load "ldap_uri ldap://x\n".toList ⟨true, true⟩
    (by decide) (by decide)
  exact ⟨by decide, by decide, h.1 emptyConf,
    h.2 [("# c\n".toList, ⟨true, true⟩)] [] _ emptyConf rfl⟩

/-- Claim C6: on a successful load, a uri or search_base the file left
    unset comes out as the compile-time default, and a value the file did
    set comes out verbatim — the defaulting pass never overwrites it. -/
theorem load_defaults_only_absent_fields
    (lines : List (List Char × AllocOracle)) (dOr : DefaultOracle)
    (p c : pam_hbac_config)
    (hp : processLines lines emptyConf = .ok p)
    (hc : (ph_read_config none true lines dOr).conf = some c) :
    (p.uri = none → c.uri = some PAM_HBAC_DEFAULT_URI) ∧
    (∀ u, p.uri = some u → c.uri = some u) ∧
    (p.search_base = none → c.search_base = some PAM_HBAC_DEFAULT_SEARCH_BASE) ∧
    (∀ s, p.search_base = some s → c.search_base = some s) := by
  have hd : default_config dOr p = some c := by
    simp only [ph_read_config] at hc
    rw [if_neg (by decide : ¬(true = false)), hp] at hc
    cases hdc : default_config dOr p with
    | none => simp [hdc] at hc
    | some c2 =>
      simp [hdc] at hc
      rw [hc]
  obtain ⟨hguri, hgsb⟩ := default_config_some_guard dOr p c hd
  obtain ⟨hu, hsb, -, -, -⟩ := default_config_some dOr p c hd
  refine ⟨?_, ?_, ?_, ?_⟩
  · intro hn
    rw [hu, defaultStrings_uri, if_pos hn]
    rw [defaultStrings_uri, if_pos hn] at hguri
    cases hok : dOr.uriOk with
    | false =>
      rw [hok] at hguri
      simp at hguri
    | true => simp [hok]
  · intro u hup
    rw [hu, defaultStrings_uri, if_neg (by simp [hup]), hup]
  · intro hn
    rw [hsb, defaultStrings_search_base, if_pos hn]
    rw [defaultStrings_search_base, if_pos hn] at hgsb
    cases hok : dOr.baseOk with
    | false =>
      rw [hok] at hgsb
      simp at hgsb
    | true => simp [hok]
  · intro s hsp
    rw [hsb, defaultStrings_search_base, if_neg (by simp [hsp]), hsp]

/-- Witness for C6: loading an empty file with every allocation working
    produces the compile-time defaults. -/
theorem load_defaults_only_absent_fields_witness :
    processLines [] emptyConf = .ok emptyConf ∧
    (ph_read_config none true []
        ⟨true, true, true, some (List.replicate 64 'a')⟩).conf =
      some ⟨some PAM_HBAC_DEFAULT_URI, none, none,
        some PAM_HBAC_DEFAULT_SEARCH_BASE,
        some ((List.replicate 64 'a').set (HOST_NAME_MAX - 1) nul),
        PAM_HBAC_DEFAULT_TIMEOUT⟩ ∧
    (pam_hbac_config.uri ⟨some PAM_HBAC_DEFAULT_URI, none, none,
        some PAM_HBAC_DEFAULT_SEARCH_BASE,
        some ((List.replicate 64 'a').set (HOST_NAME_MAX - 1) nul),
        PAM_HBAC_DEFAULT_TIMEOUT⟩) = some PAM_HBAC_DEFAULT_URI :=
  ⟨rfl, by decide,
    (load_defaults_only_absent_fields []
      ⟨true, true, true, some (List.replicate 64 'a')⟩ emptyConf
      ⟨some PAM_HBAC_DEFAULT_URI, none, none, some PAM_HBAC_DEFAULT_SEARCH_BASE,
        some ((List.replicate 64 'a').set (HOST_NAME_MAX - 1) nul),
        PAM_HBAC_DEFAULT_TIMEOUT⟩
      rfl (by decide)).1 rfl⟩

/-- Claim C7: when the hostname was absent and the defaulting pass fills
    it from gethostname, the stored buffer has its last byte forced to
    NUL, so it is null-terminated at or before the last byte of the
    HOST_NAME_MAX-sized buffer. -/
theorem hostname_forced_null_terminated (o : DefaultOracle)
    (p c : pam_hbac_config) (buf : List Char)
    (hh : p.hostname = none) (hbuf : o.hostBuf = some buf)
    (hlen : buf.length = HOST_NAME_MAX)
    (hd : default_config o p = some c) :
    ∃ hs, c.hostname = some hs ∧ hs.length = HOST_NAME_MAX ∧
      hs[HOST_NAME_MAX - 1]? = some nul := by
  obtain ⟨-, -, -, -, hhn⟩ := default_config_some o p c hd
  obtain ⟨buf2, hbuf2, hch⟩ := hhn hh
  rw [hbuf] at hbuf2
  obtain rfl : buf = buf2 := by
    injection hbuf2
  refine ⟨buf.set (HOST_NAME_MAX - 1) nul, hch, ?_, ?_⟩
  · rw [List.length_set, hlen]
  · apply List.getElem?_set_eq_of_lt
    rw [hlen]
    decide

/-- Witness for C7: defaulting the zeroed record with a 64-byte 'a' buffer
    from gethostname yields a hostname whose byte 63 is NUL. -/
theorem hostname_forced_null_terminated_witness :
    emptyConf.hostname = none ∧
    (⟨true, true, true, some (List.replicate 64 'a')⟩ : DefaultOracle).hostBuf =
      some (List.replicate 64 'a') ∧
    (List.replicate 64 'a').length = HOST_NAME_MAX ∧
    default_config ⟨true, true, true, some (List.replicate 64 'a')⟩ emptyConf =
      some ⟨some PAM_HBAC_DEFAULT_URI, none, none,
        some PAM_HBAC_DEFAULT_SEARCH_BASE,
        some ((List.replicate 64 'a').set (HOST_NAME_MAX - 1) nul),
        PAM_HBAC_DEFAULT_TIMEOUT⟩ ∧
    (∃ hs, (pam_hbac_config.hostname ⟨some PAM_HBAC_DEFAULT_URI, none, none,
        some PAM_HBAC_DEFAULT_SEARCH_BASE,
        some ((List.replicate 64 'a').set (HOST_NAME_MAX - 1) nul),
        PAM_HBAC_DEFAULT_TIMEOUT⟩) = some hs ∧
      hs.length = HOST_NAME_MAX ∧ hs[HOST_NAME_MAX - 1]? = some nul) :=
  ⟨rfl, rfl, by decide, by decide,
    hostname_forced_null_terminated
      ⟨true, true, true, some (List.replicate 64 'a')⟩ emptyConf
      ⟨some PAM_HBAC_DEFAULT_URI, none, none, some PAM_HBAC_DEFAULT_SEARCH_BASE,
        some ((List.replicate 64 'a').set (HOST_NAME_MAX - 1) nul),
        PAM_HBAC_DEFAULT_TIMEOUT⟩
      (List.replicate 64 'a') rfl rfl (by decide) (by decide)⟩

/-- Claim C8: a key=value line whose trimmed key matches no recognized key
    returns success (0, neither error nor the EAGAIN skip signal), leaves
    every field of the record unchanged, frees the value immediately and
    then the key; and the key is freed on every dispatch branch, match or
    no match. -/
theorem unknown_key_line_noop
    (o : AllocOracle) (conf : pam_hbac_config)
    (w1 w2 w3 w4 k v : List Char) (c : Char)
    (ho1 : o.keyOk = true) (ho2 : o.valueOk = true)
    (h1 : w1.all isspace = true) (h2 : w2.all isspace = true)
    (h3 : w3.all isspace = true) (h4 : w4.all isspace = true)
    (hk : k.head? = some c) (hc1 : isspace c = false) (hc2 : c ≠ '#')
    (hkt : trimmed k = true) (hke : '=' ∉ k) (hvt : trimmed v = true)
    (hm1 : strcaseEq k PAM_HBAC_CONFIG_URI = false)
    (hm2 : strcaseEq k PAM_HBAC_CONFIG_BIND_DN = false)
    (hm3 : strcaseEq k PAM_HBAC_CONFIG_BIND_PW = false)
    (hm4 : strcaseEq k PAM_HBAC_CONFIG_SEARCH_BASE = false)
    (hm5 : strcaseEq k PAM_HBAC_CONFIG_HOST_NAME = false) :
    read_config_line o (w1 ++ k ++ w2 ++ '=' :: (w3 ++ v ++ w4)) conf =
      ⟨0, conf, [v, k], []⟩ ∧
    (∀ conf2 k2 v2, k2 ∈ (storeKeyValue conf2 k2 v2).2.1) := by
  have hred := read_config_line_structured o conf w1 w2 w3 w4 k v c
    ho1 ho2 h1 h2 h3 h4 hk hc1 hc2 hkt hke hvt
  refine ⟨?_, storeKeyValue_frees_key⟩
  rw [hred]
  simp [storeKeyValue, hm1, hm2, hm3, hm4, hm5]

/-- Witness for C8: the line " bogus = zzz " is accepted and changes
    nothing. -/
theorem unknown_key_line_noop_witness :
    strcaseEq ("bogus".toList) PAM_HBAC_CONFIG_URI = false ∧
    read_config_line ⟨true, true⟩
        ([' '] ++ "bogus".toList ++ [' '] ++
          '=' :: ([' '] ++ "zzz".toList ++ [' '])) emptyConf =
      ⟨0, emptyConf, ["zzz".toList, "bogus".toList], []⟩ :=
  ⟨by decide,
    (unknown_key_line_noop ⟨true, true⟩ emptyConf
      [' '] [' '] [' '] [' '] ("bogus".toList) ("zzz".toList) 'b'
      rfl rfl (by decide) (by decide) (by decide) (by decide) (by decide)
      (by decide) (by decide) (by decide) (by decide) (by decide) (by decide)
      (by decide) (by decide) (by decide) (by decide)).1⟩

/-- Claim C9: a line whose first non-whitespace character is '#' leaves
    the record untouched and yields the EAGAIN skip signal, which the
    loader loop turns into "continue with the next line". -/
theorem comment_line_skipped (line : List Char) (o : AllocOracle)
    (conf : pam_hbac_config)
    (hc : (line.dropWhile isspace).head? = some '#') :
    read_config_line o line conf = ⟨EAGAIN, conf, [], []⟩ ∧
    (∀ rest, processLines ((line, o) :: rest) conf = processLines rest conf) := by
  have h1 : read_config_line o line conf = ⟨EAGAIN, conf, [], []⟩ := by
    unfold read_config_line
    rw [if_pos hc]
  refine ⟨h1, fun rest => ?_⟩
  rw [processLines_cons, h1]
  simp

/-- Witness for C9: the line "  # note" is skipped and the loop moves on. -/
theorem comment_line_skipped_witness :
    (("  # note\n".toList.dropWhile isspace).head? = some '#') ∧
    read_config_line ⟨true, true⟩ "  # note\n".toList emptyConf =
      ⟨EAGAIN, emptyConf, [], []⟩ ∧
    processLines [("  # note\n".toList, ⟨true, true⟩)] emptyConf =
      processLines [] emptyConf :=
  ⟨by decide,
    (comment_line_skipped "  # note\n".toList ⟨true, true⟩ emptyConf
      (by decide)).1,
    (comment_line_skipped "  # note\n".toList ⟨true, true⟩ emptyConf
      (by decide)).2 []⟩

/-- Claim C10: no recognized key writes the timeout field, the field is
    still zero after parsing any file, and the defaulting pass always
    replaces it, so every successfully loaded record carries the
    compile-time default timeout. -/
theorem timeout_is_always_default (openErr : Option Nat) (callocOk : Bool)
    (lines : List (List Char × AllocOracle)) (dOr : DefaultOracle)
    (c : pam_hbac_config)
    (hc : (ph_read_config openErr callocOk lines dOr).conf = some c) :
    c.timeout = PAM_HBAC_DEFAULT_TIMEOUT ∧
    (∀ conf k v, (storeKeyValue conf k v).1.timeout = conf.timeout) ∧
    (∀ p, processLines lines emptyConf = .ok p → p.timeout = 0) := by
  refine ⟨?_, storeKeyValue_timeout, ?_⟩
  · cases openErr with
    | some e => simp [ph_read_config] at hc
    | none =>
      cases callocOk with
      | false => simp [ph_read_config] at hc
      | true =>
        simp only [ph_read_config] at hc
        rw [if_neg (by decide : ¬(true = false))] at hc
        cases hpl : processLines lines emptyConf with
        | error r =>
          rw [hpl] at hc
          simp at hc
        | ok p =>
          rw [hpl] at hc
          cases hdc : default_config dOr p with
          | none => simp [hdc] at hc
          | some c2 =>
            simp [hdc] at hc
            obtain ⟨-, -, ht, -, -⟩ := default_config_some dOr p c2 hdc
            have hp0 : p.timeout = 0 :=
              processLines_timeout lines emptyConf p hpl
            rw [← hc, ht, hp0]
            simp
  · intro p hp
    exact processLines_timeout lines emptyConf p hp

/-- Witness for C10: the record loaded from an empty file has the default
    timeout. -/
theorem timeout_is_always_default_witness :
    (ph_read_config none true []
        ⟨true, true, true, some (List.replicate 64 'a')⟩).conf =
      some ⟨some PAM_HBAC_DEFAULT_URI, none, none,
        some PAM_HBAC_DEFAULT_SEARCH_BASE,
        some ((List.replicate 64 'a').set (HOST_NAME_MAX - 1) nul),
        PAM_HBAC_DEFAULT_TIMEOUT⟩ ∧
    (pam_hbac_config.timeout ⟨some PAM_HBAC_DEFAULT_URI, none, none,
        some PAM_HBAC_DEFAULT_SEARCH_BASE,
        some ((List.replicate 64 'a').set (HOST_NAME_MAX - 1) nul),
        PAM_HBAC_DEFAULT_TIMEOUT⟩) = PAM_HBAC_DEFAULT_TIMEOUT :=
  ⟨by decide,
    (timeout_is_always_default none true []
      ⟨true, true, true, some (List.replicate 64 'a')⟩
      ⟨some PAM_HBAC_DEFAULT_URI, none, none, some PAM_HBAC_DEFAULT_SEARCH_BASE,
        some ((List.replicate 64 'a').set (HOST_NAME_MAX - 1) nul),
        PAM_HBAC_DEFAULT_TIMEOUT⟩
      (by decide)).1⟩

end PamHbac
